import Mathlib

/-!
# Verification of the badc inference scheduler and chunk-duration prober

Shallow embedding of the scheduling core of the `badc` bioacoustic pipeline:

* `src/badc/infer_scheduler.py` — `InferenceJob`, `GPUWorker`, `plan_workers`;
* `src/badc/hawkears_runner.py` — `run_job` (the attempt/backoff state machine),
  `JobResult`, `JobExecutionError`, `_write_stub_output`, `_chunk_metadata`;
* `src/badc/cli/main.py` — `_run_scheduler`, `_write_scheduler_summary`,
  `_load_resume_chunks`, `_should_skip_job`, and the worker-slot construction
  inside `infer_run`;
* `src/badc/chunking.py` — `probe_chunk_duration`, `_estimate_vram_mb`.

Modelling conventions:

* Python floats are modelled as exact rationals (`ℚ`); every arithmetic
  operation that occurs in the source (`min`, `max`, `/ 2`, comparison,
  multiplication by the literal constants `4`, `1.35 = 27/20`, `2 ** 20`)
  is exact on the inputs of interest.
* Filesystem writes are modelled by returning the written value; the
  telemetry sink is modelled as the list of appended records, in order.
* The thread pool of `_run_scheduler` is modelled by an explicit processing
  sequence: a list of (job, worker-label) pairs giving the order in which
  jobs are taken off the shared queue together with the worker slot that
  executed each one.  Each job is dequeued exactly once, so every
  interleaving corresponds to such a sequence.
* `while` loops of the prober are modelled with an explicit iteration
  budget (fuel); the top-level entry point computes a budget from the
  inputs and the termination theorem proves the loops always reach their
  natural exit condition within that budget.
-/

namespace Badc

/-! ## Data model (`infer_scheduler.py`, `hawkears_runner.py`) -/

/-- One chunk entry from a manifest (`InferenceJob` in `infer_scheduler.py`).
The dataclass has exactly these three fields; `load_jobs` constructs jobs
from the `chunk_id`, `source_path` and `recording_id` manifest columns and
nothing in the repository ever attaches further attributes. -/
structure InferenceJob where
  chunk_id : String
  chunk_path : String
  recording_id : String
deriving Repr, DecidableEq

/-- GPU slot description (`GPUWorker` in `infer_scheduler.py`). -/
structure GPUWorker where
  index : Nat
  name : String
deriving Repr, DecidableEq

/-- Device properties from `nvidia-smi` (`GPUInfo` in `gpu.py`). -/
structure GPUInfo where
  index : Nat
  name : String
  memory_total_mb : Int
deriving Repr, DecidableEq

/-- Structured output of `detect_gpus()` (`GPUDetectionResult` in
`gpu.py:35-42`): the inventory plus an optional diagnostic.  As a plain
dataclass it defines neither `__bool__`/`__len__` nor `__iter__`: an
instance is always truthy and is not iterable. -/
structure GPUDetectionResult where
  gpus : List GPUInfo
  diagnostic : Option String := none
deriving Repr, DecidableEq

/-- Success outcome of one `run_job` call (`JobResult` in `hawkears_runner.py`). -/
structure JobResult where
  output_path : String
  attempts : Nat
  retries : Nat
deriving Repr, DecidableEq

/-- Terminal failure after the retry budget is exhausted
(`JobExecutionError` in `hawkears_runner.py`); carries the chunk id and the
attempt count. -/
structure JobExecutionError where
  chunk_id : String
  attempts : Nat
deriving Repr, DecidableEq

/-- The exception message built in `JobExecutionError.__init__`. -/
def JobExecutionError.message (e : JobExecutionError) : String :=
  "Inference failed for " ++ e.chunk_id ++ " after " ++ toString e.attempts ++ " attempt(s)"

/-- An uncaught Python runtime exception: the interpreter raises these
where the code touches something that does not exist.  Only the kinds the
embedded code actually raises are modelled. -/
inductive PyError where
  /-- `AttributeError`: reading a missing attribute (carries its name). -/
  | attributeError (attr : String)
  /-- `TypeError` (carries the interpreter message). -/
  | typeError (msg : String)
deriving Repr, DecidableEq

/-- The path `output_path = output_dir / job.recording_id / (job.chunk_id ++ ".json")`
as computed at the top of `run_job`. -/
def jobOutputPath (output_dir : String) (job : InferenceJob) : String :=
  output_dir ++ "/" ++ job.recording_id ++ "/" ++ job.chunk_id ++ ".json"

/-- Lookup in an association list (Python `d.get(k)` / `d[k]`). -/
def lookupAL {α : Type} (m : List (String × α)) (k : String) : Option α :=
  (m.find? (fun p => p.1 == k)).map (fun p => p.2)

/-- Python dictionary assignment `d[k] = v`: replace the value in place when
the key is present, otherwise append a new entry (insertion order is
preserved, as for a Python `dict`). -/
def dictSet {α : Type} (m : List (String × α)) (k : String) (v : α) :
    List (String × α) :=
  if (m.find? (fun p => p.1 == k)).isSome then
    m.map (fun p => if p.1 == k then (k, v) else p)
  else m ++ [(k, v)]

/-! ## Scheduler (`cli/main.py`, `_run_scheduler`) -/

/-- Status recorded for one job in the scheduler's outcome map. -/
inductive OutcomeStatus where
  | success
  | failure
deriving Repr, DecidableEq

/-- One entry of the `job_results` map built inside `_run_scheduler`
(the dictionaries assigned at `job_results[job.chunk_id] = ...`). -/
structure JobOutcome where
  status : OutcomeStatus
  recording_id : String
  attempts : Option Nat
  retries : Option Nat
  output : Option String
  error : Option String
  worker : String
deriving Repr, DecidableEq

/-- Per-worker statistics row of `_run_scheduler`. -/
structure WorkerStats where
  success : Nat
  failure : Nat
  retries : Nat
  failed_retries : Nat
deriving Repr, DecidableEq

/-- The all-zero statistics row each worker label starts with. -/
def zeroStats : WorkerStats := ⟨0, 0, 0, 0⟩

/-- Shared mutable state of `_run_scheduler`: the stop flag, the per-worker
statistics map, the per-job outcome map, and the captured errors, exactly
the variables mutated by `worker_loop`. -/
structure SchedState where
  stop : Bool
  stats : List (String × WorkerStats)
  job_results : List (String × JobOutcome)
  errors : List JobExecutionError
deriving Repr, DecidableEq

/-- The dictionary recorded at `job_results[job.chunk_id]` on the success
path of `worker_loop`. -/
def successOutcome (job : InferenceJob) (label : String) (r : JobResult) : JobOutcome :=
  { status := .success, recording_id := job.recording_id
    attempts := some r.attempts, retries := some r.retries
    output := some r.output_path, error := none, worker := label }

/-- The dictionary recorded at `job_results[job.chunk_id]` on the exception
path of `worker_loop`. -/
def failureOutcome (job : InferenceJob) (label : String) (e : JobExecutionError) : JobOutcome :=
  { status := .failure, recording_id := job.recording_id
    attempts := some e.attempts, retries := none
    output := none, error := some e.message, worker := label }

/-- One iteration of `worker_loop` for a dequeued job: skip when the stop
flag is set (drain without executing, recording nothing); otherwise run the
job and record either a success outcome or, on an exception, capture the
error, set the stop flag and record a failure outcome.  `item` pairs the
job with the label of the worker slot that dequeued it. -/
def schedStep (runner : InferenceJob → Except JobExecutionError JobResult)
    (st : SchedState) (item : InferenceJob × String) : SchedState :=
  if st.stop then st
  else
    let job := item.1
    let label := item.2
    match runner job with
    | .ok r =>
      let cur := (lookupAL st.stats label).getD zeroStats
      { st with
        stats := dictSet st.stats label
          { cur with success := cur.success + 1, retries := cur.retries + r.retries }
        job_results := dictSet st.job_results job.chunk_id (successOutcome job label r) }
    | .error e =>
      let cur := (lookupAL st.stats label).getD zeroStats
      { st with
        stop := true
        errors := st.errors ++ [e]
        stats := dictSet st.stats label
          { cur with failure := cur.failure + 1
                     failed_retries := cur.failed_retries + (e.attempts - 1) }
        job_results := dictSet st.job_results job.chunk_id (failureOutcome job label e) }

/-- The final shared state of `_run_scheduler` for a given processing
sequence `sched`: each element is one job taken off the shared queue,
paired with the worker slot that executed it (every enqueued job is
dequeued exactly once, in some order).  `worker_labels` are the slot labels
used to initialise the statistics map. -/
def _run_scheduler_state (runner : InferenceJob → Except JobExecutionError JobResult)
    (worker_labels : List String) (sched : List (InferenceJob × String)) : SchedState :=
  sched.foldl (schedStep runner)
    ⟨false, worker_labels.map (fun l => (l, zeroStats)), [], []⟩

/-- The aggregate returned by `_run_scheduler` on success:
`{"workers": stats, "jobs": job_results}`. -/
structure RunSummary where
  workers : List (String × WorkerStats)
  jobs : List (String × JobOutcome)
deriving Repr, DecidableEq

/-- Model of `_run_scheduler`: after all threads join, re-raise the first captured
error if any (`if errors: raise errors[0]`), otherwise return the summary. -/
def _run_scheduler (runner : InferenceJob → Except JobExecutionError JobResult)
    (worker_labels : List String) (sched : List (InferenceJob × String)) :
    Except JobExecutionError RunSummary :=
  match (_run_scheduler_state runner worker_labels sched).errors with
  | [] => .ok ⟨(_run_scheduler_state runner worker_labels sched).stats,
               (_run_scheduler_state runner worker_labels sched).job_results⟩
  | e :: _ => .error e

/-- One entry of the `jobs` object of a previously written run summary, as
read back by `_load_resume_chunks` (`meta.get("status")` and
`meta.get("recording_id")`, either of which may be absent). -/
structure ResumeJobEntry where
  status : Option String
  recording_id : Option String
deriving Repr, DecidableEq

/-- Model of `_load_resume_chunks`: collect the `(recording_id, chunk_id)` pairs of
the summary entries whose status is `"success"` (entries that are not JSON
objects are skipped by the source and are not modelled). The Python set is
modelled as a list; only membership is used. -/
def _load_resume_chunks (jobs : List (String × ResumeJobEntry)) :
    List (Option String × String) :=
  (jobs.filter (fun p => p.2.status == some "success")).map
    (fun p => (p.2.recording_id, p.1))

/-- Model of `_should_skip_job`: a job is skipped when its
`(recording_id, chunk_id)` pair is among the resume entries, or when an
entry with a `null` recording id carries the same chunk id. -/
def _should_skip_job (job : InferenceJob)
    (resume_entries : List (Option String × String)) : Bool :=
  if resume_entries.isEmpty then false
  else
    resume_entries.contains (some job.recording_id, job.chunk_id) ||
      resume_entries.contains (none, job.chunk_id)

/-- The filtering statement of `infer_run`
(`jobs = [job for job in jobs if not _should_skip_job(job, resume_entries)]`). -/
def resumeFilter (jobs : List InferenceJob)
    (resume_entries : List (Option String × String)) : List InferenceJob :=
  jobs.filter (fun job => !_should_skip_job job resume_entries)

/-! ## Worker pool planner (`infer_scheduler.plan_workers` and the slot
construction in `infer_run`, `cli/main.py`) -/

/-- Model of `plan_workers(max_gpus)` (`infer_scheduler.py:72-92`):
`infos = detect_gpus()` binds the `GPUDetectionResult` itself, not the GPU
list.  The guard `if not infos: return []` never fires — a dataclass
instance with no `__bool__`/`__len__` is always truthy — and the
comprehension `[GPUWorker(...) for info in infos]` then iterates the
non-iterable dataclass, raising `TypeError` on every call (for every
inventory and every `max_gpus`), before the `max_gpus` slice is reached.
So the planner never returns a worker list at all. -/
def plan_workers (_detection : GPUDetectionResult) (_max_gpus : Option Nat) :
    Except PyError (List GPUWorker) :=
  .error (.typeError "GPUDetectionResult object is not iterable")

/-- The worker-slot construction of `infer_run`: one labelled slot per GPU
worker, then `cpu_slot_count` CPU-only slots, where `cpu_slot_count` is
`max(cpu_workers, 1)` when no GPU slot exists and `max(0, cpu_workers)`
otherwise; a final (unreachable) guard substitutes `[(None, "cpu-0")]` for
an empty pool. -/
def build_worker_slots (gpu_workers : List GPUWorker) (cpu_workers : Int) :
    List (Option GPUWorker × String) :=
  let gpuSlots := gpu_workers.map (fun w => (some w, "gpu-" ++ toString w.index))
  let cpu_slot_count : Nat :=
    if gpuSlots.isEmpty then (max cpu_workers 1).toNat else (max 0 cpu_workers).toNat
  let slots := gpuSlots ++
    (List.range cpu_slot_count).map
      (fun idx => ((none : Option GPUWorker), "cpu-" ++ toString idx))
  if slots.isEmpty then [((none : Option GPUWorker), "cpu-0")] else slots

/-! ## Chunk duration prober (`chunking.py`) -/

/-- WAV metadata needed by the prober (`_WaveMetadata` in `chunking.py`).
Numeric fields are rationals (see the modelling conventions). -/
structure WaveMetadata where
  duration_s : ℚ
  sample_rate : ℚ
  channels : ℚ
  sample_width_bytes : ℚ
deriving Repr, DecidableEq

/-- Model of `_estimate_vram_mb`: the GPU-memory heuristic, computed exactly as in
the source (`1.35` is the rational `27/20`, `1024 ** 2 = 2 ^ 20`). -/
def _estimate_vram_mb (duration_s sample_rate channels sample_width_bytes : ℚ) : ℚ :=
  let bytes_per_second := sample_rate * channels * sample_width_bytes
  let float_bytes_per_second := bytes_per_second * 4
  let overhead_factor : ℚ := 27 / 20
  let total_bytes := float_bytes_per_second * duration_s * overhead_factor
  total_bytes / 1024 ^ 2

/-- Model of `_memory_limit_mb`: 80% of the selected GPU's total memory (floored at
1 MiB), or the fixed 4096 MiB fallback when no GPU is available (the source
returns 4096 both with and without a diagnostic). -/
def _memory_limit_mb (gpu_info : Option GPUInfo) : ℚ :=
  match gpu_info with
  | some g => max 1 ((g.memory_total_mb : ℚ) * (4 / 5))
  | none => 4096

/-- One recorded probe evaluation (`ChunkProbeAttempt` in `chunking.py`;
the human-readable `reason` string is not modelled). -/
structure ChunkProbeAttempt where
  duration_s : ℚ
  estimated_vram_mb : ℚ
  fits : Bool
deriving Repr, DecidableEq

/-- The nested `evaluate` closure of `probe_chunk_duration`: cap the
candidate at `max_duration`, estimate its memory, and compare against the
limit. -/
def probeEvaluate (meta : WaveMetadata) (memory_limit_mb max_duration d : ℚ) :
    Bool × ℚ :=
  let capped := min d max_duration
  let est := _estimate_vram_mb capped meta.sample_rate meta.channels meta.sample_width_bytes
  (decide (est ≤ memory_limit_mb), est)

/-- Result of the halving phase of `probe_chunk_duration` (the inner
`while candidate > tolerance_s` loop): the `low_success` and `high_failure`
values on exit, the value of the `fits` flag after the loop, the recorded
attempts, and whether the loop reached its natural exit within the
iteration budget. -/
structure HalvePhaseResult where
  low_success : ℚ
  high_failure : ℚ
  last_fits : Bool
  attempts : List ChunkProbeAttempt
  completed : Bool
deriving Repr, DecidableEq

/-- The halving phase: while the candidate exceeds the tolerance, halve it
(floored at the tolerance) and evaluate; break with the first fitting
candidate as `low_success`, otherwise keep moving `high_failure` down.
`fuel` bounds the number of iterations (see `probeFuel`). -/
def halveLoop (meta : WaveMetadata) (memory_limit_mb max_duration tol : ℚ) :
    Nat → ℚ → ℚ → List ChunkProbeAttempt → HalvePhaseResult
  | 0, candidate, high, acc => ⟨0, high, false, acc, decide (candidate ≤ tol)⟩
  | fuel + 1, candidate, high, acc =>
    if candidate ≤ tol then ⟨0, high, false, acc, true⟩
    else
      let c := max tol (candidate / 2)
      let fe := probeEvaluate meta memory_limit_mb max_duration c
      let acc' := acc ++ [⟨c, fe.2, fe.1⟩]
      if fe.1 then ⟨c, high, true, acc', true⟩
      else halveLoop meta memory_limit_mb max_duration tol fuel c c acc'

/-- Result of the bisection phase (the `while high_failure - low_success >
tolerance_s` loop). -/
structure BisectPhaseResult where
  low_success : ℚ
  high_failure : ℚ
  attempts : List ChunkProbeAttempt
  completed : Bool
deriving Repr, DecidableEq

/-- The bisection phase: repeatedly evaluate the midpoint, keeping
`low_success` the most recent fitting duration and `high_failure` the most
recent non-fitting one, until the interval is within the tolerance. -/
def bisectLoop (meta : WaveMetadata) (memory_limit_mb max_duration tol : ℚ) :
    Nat → ℚ → ℚ → List ChunkProbeAttempt → BisectPhaseResult
  | 0, low, high, acc => ⟨low, high, acc, decide (high - low ≤ tol)⟩
  | fuel + 1, low, high, acc =>
    if high - low ≤ tol then ⟨low, high, acc, true⟩
    else
      let c := (high + low) / 2
      let fe := probeEvaluate meta memory_limit_mb max_duration c
      let acc' := acc ++ [⟨c, fe.2, fe.1⟩]
      if fe.1 then bisectLoop meta memory_limit_mb max_duration tol fuel c high acc'
      else bisectLoop meta memory_limit_mb max_duration tol fuel low c acc'

/-- Iteration budget sufficient for a loop that halves a quantity starting
at `x` until it is at most `tol` (both loops of the prober are of this
shape): `⌈x / tol⌉` rounded up to a natural number, plus one. -/
def probeFuel (x tol : ℚ) : Nat := (⌈x / tol⌉).toNat + 1

/-- Python's `round(x, 2)`: rounding to two decimal places, modelled with
round-half-up on rationals (the source rounds the float to the nearest
hundredth; ties do not arise in the claims below). -/
def round2 (x : ℚ) : ℚ := ((round (x * 100) : ℤ) : ℚ) / 100

/-- Final outcome of `probe_chunk_duration` (`ChunkProbeResult` in
`chunking.py`): the recommendation `max_duration_s = round(low, 2)`, the
unrounded final `low` value, the recorded attempts, and the flag saying
both loops reached their natural exit within the iteration budget. -/
structure ChunkProbeResult where
  max_duration_s : ℚ
  low_final : ℚ
  attempts : List ChunkProbeAttempt
  completed : Bool
deriving Repr, DecidableEq

/-- The clamped upper search bound computed at the top of
`probe_chunk_duration`: `min(max_duration_s, metadata.duration_s)` (or the
audio duration when no explicit bound is given), floored at the tolerance. -/
def probeMaxDuration (meta : WaveMetadata) (max_duration_opt : Option ℚ)
    (tolerance_s : ℚ) : ℚ :=
  let max_duration0 :=
    match max_duration_opt with
    | none => meta.duration_s
    | some m => min m meta.duration_s
  max tolerance_s max_duration0

/-- The search body of `probe_chunk_duration`, starting from the already
clamped upper bound `max_duration` and initial candidate: evaluate the
candidate, then either bisect upward (candidate fits, `low_success =
candidate`, `high_failure = max_duration`) or halve downward to find a
fitting value first (falling back to the tolerance when nothing fits) and
bisect between it and the smallest failing value; return the final `low`
rounded to two decimals. -/
def probeSearch (meta : WaveMetadata) (memory_limit_mb max_duration tolerance_s
    candidate : ℚ) : ChunkProbeResult :=
  let fe0 := probeEvaluate meta memory_limit_mb max_duration candidate
  let acc0 : List ChunkProbeAttempt := [⟨candidate, fe0.2, fe0.1⟩]
  let bfuel := probeFuel max_duration tolerance_s
  if fe0.1 then
    let b := bisectLoop meta memory_limit_mb max_duration tolerance_s bfuel
      candidate max_duration acc0
    ⟨round2 b.low_success, b.low_success, b.attempts, b.completed⟩
  else
    let h := halveLoop meta memory_limit_mb max_duration tolerance_s
      (probeFuel candidate tolerance_s) candidate candidate acc0
    let low := if h.low_success = 0 ∧ h.last_fits = false then tolerance_s
      else h.low_success
    let b := bisectLoop meta memory_limit_mb max_duration tolerance_s bfuel
      low h.high_failure h.attempts
    ⟨round2 b.low_success, b.low_success, b.attempts, b.completed && h.completed⟩

/-- Model of `probe_chunk_duration`, after the argument validation and metadata read:
clamp the upper bound to `min(max_duration_s, metadata.duration_s)` floored
at the tolerance, cap the initial candidate at that bound, and run the
search. -/
def probe_chunk_duration (meta : WaveMetadata) (memory_limit_mb : ℚ)
    (initial_duration_s : ℚ) (max_duration_opt : Option ℚ) (tolerance_s : ℚ) :
    ChunkProbeResult :=
  probeSearch meta memory_limit_mb (probeMaxDuration meta max_duration_opt tolerance_s)
    tolerance_s
    (min initial_duration_s (probeMaxDuration meta max_duration_opt tolerance_s))

/-! ## Concrete scenarios used by counterexamples and witnesses -/

/-- Manifest job `(r1, c1)`. -/
def jobC1 : InferenceJob :=
  { chunk_id := "c1", chunk_path := "p1", recording_id := "r1" }

/-- Manifest job `(r1, c2)`. -/
def jobC2 : InferenceJob :=
  { chunk_id := "c2", chunk_path := "p2", recording_id := "r1" }

/-- A job runner that fails `c1` terminally (after one attempt) and
succeeds on everything else. -/
def failOnC1Runner : InferenceJob → Except JobExecutionError JobResult :=
  fun job =>
    if job.chunk_id == "c1" then .error ⟨"c1", 1⟩
    else .ok ⟨jobOutputPath "out" job, 1, 0⟩

/-- A two-job single-worker processing sequence in manifest order. -/
def twoJobSched : List (InferenceJob × String) :=
  [(jobC1, "cpu-0"), (jobC2, "cpu-0")]

/-! ## C3 — stub mode -/

/-- C9: the prober's memory estimate equals
`sampleRate * channels * sampleWidthBytes * 4 * 1.35 * durationSeconds / 2 ^ 20`
exactly, and for `sampleRate = 44100`, `channels = 1`, `sampleWidth = 2` it
is strictly increasing in the duration. -/
theorem estimate_vram_formula :
    (∀ d r c w : ℚ,
      _estimate_vram_mb d r c w = r * c * w * 4 * (27 / 20) * d / 2 ^ 20) ∧
    (∀ d1 d2 : ℚ, d1 < d2 →
      _estimate_vram_mb d1 44100 1 2 < _estimate_vram_mb d2 44100 1 2) := by
  constructor
  · intro d r c w
    show r * c * w * 4 * d * (27 / 20) / 1024 ^ 2 = r * c * w * 4 * (27 / 20) * d / 2 ^ 20
    ring
  · intro d1 d2 h
    show (44100 : ℚ) * 1 * 2 * 4 * d1 * (27 / 20) / 1024 ^ 2 <
      44100 * 1 * 2 * 4 * d2 * (27 / 20) / 1024 ^ 2
    have h1 : (44100 : ℚ) * 1 * 2 * 4 * d1 * (27 / 20) / 1024 ^ 2 =
        (476280 / 1048576) * d1 := by ring
    have h2 : (44100 : ℚ) * 1 * 2 * 4 * d2 * (27 / 20) / 1024 ^ 2 =
        (476280 / 1048576) * d2 := by ring
    rw [h1, h2]
    have hc : (0 : ℚ) < 476280 / 1048576 := by norm_num
    exact mul_lt_mul_of_pos_left h hc

/-- Witness for C9: the strict-monotonicity part evaluated at durations
1 and 2. -/
theorem estimate_vram_formula_witness :
    _estimate_vram_mb 1 44100 1 2 < _estimate_vram_mb 2 44100 1 2 :=
  estimate_vram_formula.2 1 2 (by norm_num)

/-! ## C8 — worker pool planner -/

/-- The final empty-pool guard of the slot construction never fires: the
slot list is literally the GPU slots followed by the computed number of
CPU slots.  (Documents `infer_run`, `main.py:960-979` — code downstream of
the `plan_workers` call.) -/
theorem build_worker_slots_eq (gpu_workers : List GPUWorker) (cpu_workers : Int) :
    build_worker_slots gpu_workers cpu_workers =
      gpu_workers.map (fun w => ((some w : Option GPUWorker), "gpu-" ++ toString w.index)) ++
        (List.range (if gpu_workers.isEmpty then (max cpu_workers 1).toNat
                     else (max 0 cpu_workers).toNat)).map
          (fun idx => ((none : Option GPUWorker), "cpu-" ++ toString idx)) := by
  unfold build_worker_slots
  cases gpu_workers with
  | nil =>
    have hcount : (max cpu_workers 1).toNat ≠ 0 := by
      have := le_max_right cpu_workers 1
      omega
    simp [List.range_eq_nil, hcount]
  | cons w ws => simp

/-- The slot construction of `infer_run` on its own never yields an empty
pool. -/
theorem build_worker_slots_ne_nil (gpu_workers : List GPUWorker) (cpu_workers : Int) :
    build_worker_slots gpu_workers cpu_workers ≠ [] := by
  rw [build_worker_slots_eq]
  cases gpu_workers with
  | nil =>
    have hcount : (max cpu_workers 1).toNat ≠ 0 := by
      have := le_max_right cpu_workers 1
      omega
    simp [List.range_eq_nil, hcount]
  | cons w ws => simp

/-- C8 (code bug): `plan_workers` never produces worker slots at all — for
every GPU inventory, diagnostic and `max_gpus` value it raises `TypeError`,
because `detect_gpus()` returns a `GPUDetectionResult` that is always
truthy (so the empty guard is dead) and not iterable (so the comprehension
crashes); `infer_run` additionally unpacks two values from the declared
single-list return (`main.py:935`).  "No error is raised for missing GPUs"
and the never-empty pool are therefore false of the code; the caller and
the spec agree on the intended contract, so the stale planner is the
slip.  (The downstream slot construction, `build_worker_slots`, does
implement the claimed labelling and counts: see `build_worker_slots_eq`
and `build_worker_slots_ne_nil`.) -/
theorem plan_workers_always_raises (detection : GPUDetectionResult)
    (max_gpus : Option Nat) :
    plan_workers detection max_gpus =
      .error (.typeError "GPUDetectionResult object is not iterable") := rfl

/-! ## C7 — resume filter -/

/-- Helper for C7: membership in the loaded resume-entry set. -/
theorem mem_load_resume_chunks (summaryJobs : List (String × ResumeJobEntry))
    (x : Option String × String) :
    x ∈ _load_resume_chunks summaryJobs ↔
      ∃ p ∈ summaryJobs,
        p.2.status = some "success" ∧ p.2.recording_id = x.1 ∧ p.1 = x.2 := by
  unfold _load_resume_chunks
  simp only [List.mem_map, List.mem_filter, beq_iff_eq]
  constructor
  · rintro ⟨p, ⟨hp, hs⟩, hx⟩
    exact ⟨p, hp, hs, by rw [← hx], by rw [← hx]⟩
  · rintro ⟨p, hp, hs, h1, h2⟩
    exact ⟨p, ⟨hp, hs⟩, by rw [h1, h2]⟩

/-- Helper for C7: the skip test holds exactly when the job's own pair or
the null-recording pair with its chunk id is among the resume entries. -/
theorem should_skip_iff (job : InferenceJob)
    (entries : List (Option String × String)) :
    _should_skip_job job entries = true ↔
      (some job.recording_id, job.chunk_id) ∈ entries ∨
        (none, job.chunk_id) ∈ entries := by
  unfold _should_skip_job
  by_cases he : entries.isEmpty
  · have : entries = [] := List.isEmpty_iff.mp he
    subst this
    simp
  · simp [he, List.contains, List.elem_iff]

/-- C7: filtering a fresh job list against a prior run summary removes
exactly the jobs whose `(recordingId, chunkId)` pair is marked `success`
in the summary, a `null` recording id in the summary matching any job with
that chunk id; and on the concrete scenario — summary marking chunk `c1`
of recording `r1` as success, manifest `[(r1,c1), (r1,c2)]` — filtering
yields exactly `[(r1,c2)]`. -/
theorem resume_filter_spec :
    (∀ (summaryJobs : List (String × ResumeJobEntry)) (jobs : List InferenceJob)
        (job : InferenceJob),
      job ∈ resumeFilter jobs (_load_resume_chunks summaryJobs) ↔
        job ∈ jobs ∧
          ¬ ∃ p ∈ summaryJobs,
              p.2.status = some "success" ∧ p.1 = job.chunk_id ∧
                (p.2.recording_id = some job.recording_id ∨ p.2.recording_id = none)) ∧
    resumeFilter [jobC1, jobC2]
        (_load_resume_chunks [("c1", ⟨some "success", some "r1"⟩)]) = [jobC2] := by
  constructor
  · intro summaryJobs jobs job
    unfold resumeFilter
    rw [List.mem_filter]
    have hb : ∀ b : Bool, ((!b) = true ↔ b = false) := by decide
    rw [hb]
    have hskip : _should_skip_job job (_load_resume_chunks summaryJobs) = false ↔
        ¬ ((some job.recording_id, job.chunk_id) ∈ _load_resume_chunks summaryJobs ∨
            (none, job.chunk_id) ∈ _load_resume_chunks summaryJobs) := by
      rw [← should_skip_iff]
      constructor
      · intro h hc
        rw [h] at hc
        exact Bool.false_ne_true hc
      · intro h
        cases hv : _should_skip_job job (_load_resume_chunks summaryJobs) with
        | false => rfl
        | true => exact absurd hv h
    rw [hskip, mem_load_resume_chunks, mem_load_resume_chunks]
    constructor
    · rintro ⟨hmem, hno⟩
      refine ⟨hmem, ?_⟩
      rintro ⟨p, hp, hs, hc, hr⟩
      apply hno
      cases hr with
      | inl h => exact Or.inl ⟨p, hp, hs, h, hc⟩
      | inr h => exact Or.inr ⟨p, hp, hs, h, hc⟩
    · rintro ⟨hmem, hno⟩
      refine ⟨hmem, ?_⟩
      rintro (⟨p, hp, hs, hr, hc⟩ | ⟨p, hp, hs, hr, hc⟩)
      · exact hno ⟨p, hp, hs, hc, Or.inl hr⟩
      · exact hno ⟨p, hp, hs, hc, Or.inr hr⟩
  · decide

/-! ## C4 — job failing on every attempt -/

/-- Helper: inserting a fresh key appends the entry. -/
theorem dictSet_append_of_fresh {α : Type} (m : List (String × α)) (k : String) (v : α)
    (h : ∀ q ∈ m, q.1 ≠ k) : dictSet m k v = m ++ [(k, v)] := by
  unfold dictSet
  have hnone : m.find? (fun p => p.1 == k) = none := by
    rw [List.find?_eq_none]
    intro q hq
    simp [h q hq]
  rw [hnone]
  simp

/-- Helper: a fold of `_run_scheduler`'s worker steps over an all-success
runner never sets the stop flag, captures no error, and performs exactly
one `job_results` insertion per processed job. -/
theorem sched_allok_fold (res : InferenceJob → JobResult) :
    ∀ (sched : List (InferenceJob × String)) (st : SchedState), st.stop = false →
      (sched.foldl (schedStep (fun j => .ok (res j))) st).stop = false ∧
      (sched.foldl (schedStep (fun j => .ok (res j))) st).errors = st.errors ∧
      (sched.foldl (schedStep (fun j => .ok (res j))) st).job_results =
        sched.foldl
          (fun m p => dictSet m p.1.chunk_id (successOutcome p.1 p.2 (res p.1)))
          st.job_results := by
  intro sched
  induction sched with
  | nil => intro st h; exact ⟨h, rfl, rfl⟩
  | cons p rest ih =>
    intro st h
    have hstop : (schedStep (fun j => .ok (res j)) st p).stop = false := by
      simp [schedStep, h]
    have herr : (schedStep (fun j => .ok (res j)) st p).errors = st.errors := by
      simp [schedStep, h]
    have hjr : (schedStep (fun j => .ok (res j)) st p).job_results =
        dictSet st.job_results p.1.chunk_id (successOutcome p.1 p.2 (res p.1)) := by
      simp [schedStep, h]
    rw [List.foldl_cons, List.foldl_cons]
    obtain ⟨s1, s2, s3⟩ := ih (schedStep (fun j => .ok (res j)) st p) hstop
    exact ⟨s1, by rw [s2, herr], by rw [s3, hjr]⟩

/-- Helper: folding dictionary insertions whose keys are pairwise distinct
and absent from the accumulator appends one entry per insertion. -/
theorem foldl_dictSet_fresh {α : Type} (f : InferenceJob × String → α) :
    ∀ (sched : List (InferenceJob × String)) (m : List (String × α)),
      (sched.map (fun p => p.1.chunk_id)).Nodup →
      (∀ p ∈ sched, ∀ q ∈ m, q.1 ≠ p.1.chunk_id) →
      sched.foldl (fun acc p => dictSet acc p.1.chunk_id (f p)) m =
        m ++ sched.map (fun p => (p.1.chunk_id, f p)) := by
  intro sched
  induction sched with
  | nil => intro m _ _; simp
  | cons p rest ih =>
    intro m hnd hfresh
    rw [List.foldl_cons]
    rw [dictSet_append_of_fresh m p.1.chunk_id (f p) (hfresh p (by simp))]
    have hnd' : (rest.map (fun p => p.1.chunk_id)).Nodup := by
      rw [List.map_cons] at hnd
      exact hnd.of_cons
    have hhead : p.1.chunk_id ∉ rest.map (fun p => p.1.chunk_id) := by
      rw [List.map_cons] at hnd
      exact (List.nodup_cons.mp hnd).1
    have hfresh' : ∀ p' ∈ rest, ∀ q ∈ m ++ [(p.1.chunk_id, f p)], q.1 ≠ p'.1.chunk_id := by
      intro p' hp' q hq
      rcases List.mem_append.mp hq with hm | hone
      · exact hfresh p' (by simp [hp']) q hm
      · have hq1 : q.1 = p.1.chunk_id := by
          have : q = (p.1.chunk_id, f p) := by simpa using hone
          rw [this]
        rw [hq1]
        intro hcontra
        exact hhead (by
          rw [hcontra]
          exact List.mem_map_of_mem _ hp')
    rw [ih (m ++ [(p.1.chunk_id, f p)]) hnd' hfresh']
    simp

/-- Helper: looking up the key of an entry of an association list with
pairwise-distinct keys returns that entry's value. -/
theorem lookupAL_of_mem_nodup {α : Type} :
    ∀ (l : List (String × α)), (l.map Prod.fst).Nodup →
      ∀ p ∈ l, lookupAL l p.1 = some p.2 := by
  intro l
  induction l with
  | nil => intro _ p hp; exact absurd hp (List.not_mem_nil p)
  | cons q rest ih =>
    intro hnd p hp
    rw [List.map_cons] at hnd
    rcases List.mem_cons.mp hp with rfl | hp'
    · unfold lookupAL
      rw [List.find?_cons_of_pos _ (by simp)]
      rfl
    · have hq : q.1 ≠ p.1 := by
        intro hcontra
        exact (List.nodup_cons.mp hnd).1 (hcontra ▸ List.mem_map_of_mem _ hp')
      unfold lookupAL
      rw [List.find?_cons_of_neg _ (by simp [hq])]
      exact ih (List.nodup_cons.mp hnd).2 p hp'

/-- C1 (amended): for any processing order and worker assignment in which
every job succeeds and the chunk ids are pairwise distinct, `_run_scheduler`
returns a summary whose jobs map has exactly one `success` entry per
submitted job — `N` entries total, no entry omitted and no spurious entry.
(The unamended claim fails for runs with a failing job: see the
counterexample.) -/
theorem scheduler_outcome_map (res : InferenceJob → JobResult)
    (labels : List String) (sched : List (InferenceJob × String))
    (hnodup : (sched.map (fun p => p.1.chunk_id)).Nodup) :
    ∃ s : RunSummary,
      _run_scheduler (fun j => .ok (res j)) labels sched = .ok s ∧
      s.jobs = sched.map (fun p => (p.1.chunk_id, successOutcome p.1 p.2 (res p.1))) ∧
      s.jobs.length = sched.length ∧
      ∀ p ∈ sched, lookupAL s.jobs p.1.chunk_id =
        some (successOutcome p.1 p.2 (res p.1)) := by
  have hfold := sched_allok_fold res sched
    ⟨false, labels.map (fun l => (l, zeroStats)), [], []⟩ rfl
  have hjobs : (_run_scheduler_state (fun j => .ok (res j)) labels sched).job_results =
      sched.map (fun p => (p.1.chunk_id, successOutcome p.1 p.2 (res p.1))) := by
    unfold _run_scheduler_state
    rw [hfold.2.2]
    have := foldl_dictSet_fresh (fun p => successOutcome p.1 p.2 (res p.1)) sched []
      hnodup (by intro p _ q hq; exact absurd hq (List.not_mem_nil q))
    rw [this]
    simp
  have herr : (_run_scheduler_state (fun j => .ok (res j)) labels sched).errors = [] :=
    hfold.2.1
  refine ⟨⟨(_run_scheduler_state (fun j => .ok (res j)) labels sched).stats,
    (_run_scheduler_state (fun j => .ok (res j)) labels sched).job_results⟩, ?_, ?_, ?_, ?_⟩
  · unfold _run_scheduler
    rw [herr]
  · exact hjobs
  · rw [hjobs]
    simp
  · intro p hp
    rw [hjobs]
    have hkeys : ((sched.map
        (fun p => (p.1.chunk_id, successOutcome p.1 p.2 (res p.1)))).map Prod.fst).Nodup := by
      rw [List.map_map]
      exact hnodup
    have hm : (p.1.chunk_id, successOutcome p.1 p.2 (res p.1)) ∈
        sched.map (fun p => (p.1.chunk_id, successOutcome p.1 p.2 (res p.1))) :=
      List.mem_map_of_mem _ hp
    exact lookupAL_of_mem_nodup _ hkeys _ hm

/-- Witness for C1 (amended): two distinct jobs, one worker, all succeeding. -/
theorem scheduler_outcome_map_witness :
    ∃ s : RunSummary,
      _run_scheduler (fun j => .ok ⟨jobOutputPath "out" j, 1, 0⟩) ["cpu-0"] twoJobSched =
        .ok s ∧
      s.jobs = twoJobSched.map
        (fun p => (p.1.chunk_id, successOutcome p.1 p.2 ⟨jobOutputPath "out" p.1, 1, 0⟩)) ∧
      s.jobs.length = twoJobSched.length ∧
      ∀ p ∈ twoJobSched, lookupAL s.jobs p.1.chunk_id =
        some (successOutcome p.1 p.2 ⟨jobOutputPath "out" p.1, 1, 0⟩) :=
  scheduler_outcome_map (fun j => ⟨jobOutputPath "out" j, 1, 0⟩) ["cpu-0"] twoJobSched
    (by decide)

/-- Counterexample to C1 as stated: two submitted jobs on one worker slot,
the first failing terminally.  The stop flag set by the failure makes the
second job be drained without executing and without recording any outcome:
the job map ends with one entry instead of two, and chunk `c2` is absent
from it. -/
theorem scheduler_omits_job_after_failure :
    twoJobSched.length = 2 ∧
    (_run_scheduler_state failOnC1Runner ["cpu-0"] twoJobSched).job_results.length = 1 ∧
    lookupAL (_run_scheduler_state failOnC1Runner ["cpu-0"] twoJobSched).job_results
      "c2" = none := by decide

/-! ## C2 — run summary on failed runs -/

/-- Helper: the computed iteration budget is large enough — the starting
quantity is at most `tol * 2 ^ probeFuel`. -/
theorem probeFuel_spec (x tol : ℚ) (ht : 0 < tol) :
    x ≤ tol * 2 ^ probeFuel x tol := by
  by_cases hx : x ≤ 0
  · have hpos : (0 : ℚ) < tol * 2 ^ probeFuel x tol := by positivity
    linarith
  · push_neg at hx
    have hdiv : x / tol ≤ (⌈x / tol⌉ : ℚ) := Int.le_ceil _
    have hceil_pos : 0 < ⌈x / tol⌉ := Int.ceil_pos.mpr (by positivity)
    have hcast : ((⌈x / tol⌉).toNat : ℚ) = ((⌈x / tol⌉ : ℤ) : ℚ) := by
      rw [← Int.cast_natCast]
      rw [Int.toNat_of_nonneg (le_of_lt hceil_pos)]
    have hlt : ((⌈x / tol⌉).toNat : ℚ) < 2 ^ (⌈x / tol⌉).toNat := by
      have h := Nat.lt_two_pow (⌈x / tol⌉).toNat
      exact_mod_cast h
    have hpow : (2 : ℚ) ^ (⌈x / tol⌉).toNat ≤ 2 ^ ((⌈x / tol⌉).toNat + 1) := by
      apply pow_le_pow_right₀ (by norm_num)
      omega
    have hfinal : x / tol ≤ (2 : ℚ) ^ probeFuel x tol := by
      unfold probeFuel
      calc x / tol ≤ ((⌈x / tol⌉ : ℤ) : ℚ) := hdiv
      _ = ((⌈x / tol⌉).toNat : ℚ) := hcast.symm
      _ ≤ 2 ^ (⌈x / tol⌉).toNat := le_of_lt hlt
      _ ≤ 2 ^ ((⌈x / tol⌉).toNat + 1) := hpow
    rw [mul_comm]
    exact (div_le_iff₀ ht).mp hfinal

/-- Helper: the bisection loop reaches its natural exit within any budget
`fuel` such that the initial interval is at most `tol * 2 ^ fuel`. -/
theorem bisect_completes (meta : WaveMetadata) (lim maxd tol : ℚ) (ht : 0 < tol) :
    ∀ (fuel : Nat) (low high : ℚ) (acc : List ChunkProbeAttempt),
      high - low ≤ tol * 2 ^ fuel →
      (bisectLoop meta lim maxd tol fuel low high acc).completed = true := by
  intro fuel
  induction fuel with
  | zero =>
    intro low high acc h
    simp only [bisectLoop]
    exact decide_eq_true (by rw [pow_zero, mul_one] at h; exact h)
  | succ n ih =>
    intro low high acc h
    simp only [bisectLoop]
    by_cases hc : high - low ≤ tol
    · simp [hc]
    · simp only [hc, if_false]
      have hgap : (high + low) / 2 - low ≤ tol * 2 ^ n ∧
          high - (high + low) / 2 ≤ tol * 2 ^ n := by
        have hpow : tol * 2 ^ (n + 1) = 2 * (tol * 2 ^ n) := by ring
        rw [hpow] at h
        constructor <;> linarith
      by_cases hf : (probeEvaluate meta lim maxd ((high + low) / 2)).1 = true
      · simp only [hf, if_true]
        exact ih _ _ _ hgap.2
      · simp only [hf, if_false]
        exact ih _ _ _ hgap.1

/-- Helper: the halving loop reaches its natural exit (the tolerance floor
or a fitting candidate) within any budget `fuel` such that the starting
candidate is at most `tol * 2 ^ fuel`. -/
theorem halve_completes (meta : WaveMetadata) (lim maxd tol : ℚ) (ht : 0 < tol) :
    ∀ (fuel : Nat) (c high : ℚ) (acc : List ChunkProbeAttempt),
      c ≤ tol * 2 ^ fuel →
      (halveLoop meta lim maxd tol fuel c high acc).completed = true := by
  intro fuel
  induction fuel with
  | zero =>
    intro c high acc h
    simp only [halveLoop]
    exact decide_eq_true (by rw [pow_zero, mul_one] at h; exact h)
  | succ n ih =>
    intro c high acc h
    simp only [halveLoop]
    by_cases hc : c ≤ tol
    · simp [hc]
    · simp only [hc, if_false]
      have hnext : max tol (c / 2) ≤ tol * 2 ^ n := by
        have h1 : tol ≤ tol * 2 ^ n := by
          nlinarith [one_le_pow₀ (by norm_num : (1:ℚ) ≤ 2) (n := n)]
        have h2 : c / 2 ≤ tol * 2 ^ n := by
          have hpow : tol * 2 ^ (n + 1) = 2 * (tol * 2 ^ n) := by ring
          rw [hpow] at h
          linarith
        exact max_le h1 h2
      by_cases hf : (probeEvaluate meta lim maxd (max tol (c / 2))).1 = true
      · simp [hf]
      · simp only [hf, if_false]
        exact ih _ _ _ hnext

/-- Helper: the bisection loop's final `low_success` never drops below its
initial value and never exceeds `max low high`. -/
theorem bisect_low_bounds (meta : WaveMetadata) (lim maxd tol : ℚ) (ht : 0 < tol) :
    ∀ (fuel : Nat) (low high : ℚ) (acc : List ChunkProbeAttempt),
      low ≤ (bisectLoop meta lim maxd tol fuel low high acc).low_success ∧
      (bisectLoop meta lim maxd tol fuel low high acc).low_success ≤ max low high := by
  intro fuel
  induction fuel with
  | zero =>
    intro low high acc
    simp only [bisectLoop]
    exact ⟨le_refl _, le_max_left _ _⟩
  | succ n ih =>
    intro low high acc
    simp only [bisectLoop]
    by_cases hc : high - low ≤ tol
    · simp only [hc, if_true]
      exact ⟨le_refl _, le_max_left _ _⟩
    · simp only [hc, if_false]
      have hlh : low < high := by
        push_neg at hc
        linarith
      have hmid1 : low ≤ (high + low) / 2 := by linarith
      have hmid2 : (high + low) / 2 ≤ high := by linarith
      cases hf : (probeEvaluate meta lim maxd ((high + low) / 2)).1 with
      | true =>
        simp only [hf, if_true]
        obtain ⟨i1, i2⟩ := ih ((high + low) / 2) high
          (acc ++ [⟨(high + low) / 2, (probeEvaluate meta lim maxd ((high + low) / 2)).2, true⟩])
        constructor
        · exact le_trans hmid1 i1
        · refine le_trans i2 ?_
          rw [max_eq_right hmid2]
          exact le_max_right _ _
      | false =>
        simp only [hf, Bool.false_eq_true, if_false]
        obtain ⟨i1, i2⟩ := ih low ((high + low) / 2)
          (acc ++ [⟨(high + low) / 2, (probeEvaluate meta lim maxd ((high + low) / 2)).2, false⟩])
        constructor
        · exact i1
        · refine le_trans i2 ?_
          rw [max_eq_right hmid1]
          exact le_trans hmid2 (le_max_right _ _)

/-- Helper: after the halving phase, either no candidate fit (`low_success`
still `0` with the `fits` flag false) or `low_success` is a fitting
candidate in `[tol, c]`; and `high_failure` never exceeds
`max c high`. -/
theorem halve_bounds (meta : WaveMetadata) (lim maxd tol : ℚ) (ht : 0 < tol) :
    ∀ (fuel : Nat) (c high : ℚ) (acc : List ChunkProbeAttempt), 0 < c →
      (((halveLoop meta lim maxd tol fuel c high acc).low_success = 0 ∧
          (halveLoop meta lim maxd tol fuel c high acc).last_fits = false) ∨
        (tol ≤ (halveLoop meta lim maxd tol fuel c high acc).low_success ∧
          (halveLoop meta lim maxd tol fuel c high acc).low_success ≤ c)) ∧
      (halveLoop meta lim maxd tol fuel c high acc).high_failure ≤ max c high := by
  intro fuel
  induction fuel with
  | zero =>
    intro c high acc hc
    exact ⟨Or.inl ⟨rfl, rfl⟩, le_max_right _ _⟩
  | succ n ih =>
    intro c high acc hcpos
    simp only [halveLoop]
    by_cases hc : c ≤ tol
    · rw [if_pos hc]
      exact ⟨Or.inl ⟨rfl, rfl⟩, le_max_right _ _⟩
    · rw [if_neg hc]
      push_neg at hc
      have hc1 : tol ≤ max tol (c / 2) := le_max_left _ _
      have hc2 : max tol (c / 2) ≤ c := max_le (le_of_lt hc) (by linarith)
      cases hf : (probeEvaluate meta lim maxd (max tol (c / 2))).1 with
      | true =>
        simp only [hf, if_true]
        exact ⟨Or.inr ⟨hc1, hc2⟩, le_max_right _ _⟩
      | false =>
        simp only [hf, Bool.false_eq_true, if_false]
        have hcpos' : 0 < max tol (c / 2) := lt_of_lt_of_le ht hc1
        obtain ⟨i1, i2⟩ := ih (max tol (c / 2)) (max tol (c / 2))
          (acc ++ [⟨max tol (c / 2), (probeEvaluate meta lim maxd (max tol (c / 2))).2, false⟩])
          hcpos'
        constructor
        · cases i1 with
          | inl h => exact Or.inl h
          | inr h => exact Or.inr ⟨h.1, le_trans h.2 hc2⟩
        · refine le_trans i2 ?_
          rw [max_self]
          exact le_trans hc2 (le_max_left _ _)

/-- Helper: two-decimal rounding moves a value by at most `1/200`. -/
theorem round2_close (x : ℚ) : |round2 x - x| ≤ 1 / 200 := by
  unfold round2
  have h := abs_sub_round (x * 100)
  have heq : ((round (x * 100) : ℤ) : ℚ) / 100 - x =
      (((round (x * 100) : ℤ) : ℚ) - x * 100) / 100 := by ring
  rw [heq, abs_div]
  have h100 : |(100 : ℚ)| = 100 := by norm_num
  rw [h100, div_le_iff₀ (by norm_num : (0 : ℚ) < 100), abs_sub_comm]
  calc |x * 100 - ((round (x * 100) : ℤ) : ℚ)| ≤ 1 / 2 := h
  _ ≤ 1 / 200 * 100 := by norm_num

/-- Helper: the search phase keeps the final unrounded `low` value between
`min(candidate, tolerance)` and the clamped upper bound, returns it rounded
to two decimals, and both loops reach their natural exit within the
computed budgets. -/
theorem probe_search_main (meta : WaveMetadata) (lim M tol cand : ℚ)
    (ht : 0 < tol) (hcpos : 0 < cand) (hcle : cand ≤ M) (htM : tol ≤ M) :
    min cand tol ≤ (probeSearch meta lim M tol cand).low_final ∧
    (probeSearch meta lim M tol cand).low_final ≤ M ∧
    (probeSearch meta lim M tol cand).max_duration_s =
      round2 (probeSearch meta lim M tol cand).low_final ∧
    (probeSearch meta lim M tol cand).completed = true := by
  have hMfuel := probeFuel_spec M tol ht
  simp only [probeSearch]
  cases hf0 : (probeEvaluate meta lim M cand).1 with
  | true =>
    simp only [hf0, if_true]
    obtain ⟨b1, b2⟩ := bisect_low_bounds meta lim M tol ht (probeFuel M tol) cand M
      [⟨cand, (probeEvaluate meta lim M cand).2, true⟩]
    refine ⟨le_trans (min_le_left _ _) b1, ?_, trivial, ?_⟩
    · refine le_trans b2 ?_
      rw [max_eq_right hcle]
    · apply bisect_completes meta lim M tol ht
      linarith
  | false =>
    simp only [hf0, Bool.false_eq_true, if_false]
    obtain ⟨h1, h2⟩ := halve_bounds meta lim M tol ht (probeFuel cand tol) cand cand
      [⟨cand, (probeEvaluate meta lim M cand).2, false⟩] hcpos
    rw [max_self] at h2
    have hhc := halve_completes meta lim M tol ht (probeFuel cand tol) cand cand
      [⟨cand, (probeEvaluate meta lim M cand).2, false⟩] (probeFuel_spec cand tol ht)
    by_cases hcond :
        (halveLoop meta lim M tol (probeFuel cand tol) cand cand
          [⟨cand, (probeEvaluate meta lim M cand).2, false⟩]).low_success = 0 ∧
        (halveLoop meta lim M tol (probeFuel cand tol) cand cand
          [⟨cand, (probeEvaluate meta lim M cand).2, false⟩]).last_fits = false
    · rw [if_pos hcond]
      obtain ⟨b1, b2⟩ := bisect_low_bounds meta lim M tol ht (probeFuel M tol) tol
        (halveLoop meta lim M tol (probeFuel cand tol) cand cand
          [⟨cand, (probeEvaluate meta lim M cand).2, false⟩]).high_failure
        (halveLoop meta lim M tol (probeFuel cand tol) cand cand
          [⟨cand, (probeEvaluate meta lim M cand).2, false⟩]).attempts
      refine ⟨le_trans (min_le_right _ _) b1, ?_, trivial, ?_⟩
      · refine le_trans b2 ?_
        exact max_le htM (le_trans h2 hcle)
      · rw [Bool.and_eq_true]
        refine ⟨?_, hhc⟩
        apply bisect_completes meta lim M tol ht
        have := le_trans h2 hcle
        linarith
    · rw [if_neg hcond]
      have h1' : tol ≤ (halveLoop meta lim M tol (probeFuel cand tol) cand cand
            [⟨cand, (probeEvaluate meta lim M cand).2, false⟩]).low_success ∧
          (halveLoop meta lim M tol (probeFuel cand tol) cand cand
            [⟨cand, (probeEvaluate meta lim M cand).2, false⟩]).low_success ≤ cand := by
        cases h1 with
        | inl h => exact absurd h hcond
        | inr h => exact h
      obtain ⟨b1, b2⟩ := bisect_low_bounds meta lim M tol ht (probeFuel M tol)
        (halveLoop meta lim M tol (probeFuel cand tol) cand cand
          [⟨cand, (probeEvaluate meta lim M cand).2, false⟩]).low_success
        (halveLoop meta lim M tol (probeFuel cand tol) cand cand
          [⟨cand, (probeEvaluate meta lim M cand).2, false⟩]).high_failure
        (halveLoop meta lim M tol (probeFuel cand tol) cand cand
          [⟨cand, (probeEvaluate meta lim M cand).2, false⟩]).attempts
      refine ⟨le_trans (min_le_right _ _) (le_trans h1'.1 b1), ?_, trivial, ?_⟩
      · refine le_trans b2 ?_
        exact max_le (le_trans h1'.2 hcle) (le_trans h2 hcle)
      · rw [Bool.and_eq_true]
        refine ⟨?_, hhc⟩
        apply bisect_completes meta lim M tol ht
        have hh := le_trans h2 hcle
        have hl := h1'.1
        linarith

/-- C10: for every positive `initial_duration_s` and `tolerance_s`, both
search loops of `probe_chunk_duration` reach their natural exit condition
within the computed iteration budgets — the halving phase drives the
candidate down to the tolerance floor and the bisection phase shrinks the
interval below the tolerance — so the probe terminates and its recorded
attempt list is finite. -/
theorem probe_terminates (meta : WaveMetadata) (lim initial tol : ℚ)
    (maxOpt : Option ℚ) (hi : 0 < initial) (ht : 0 < tol) :
    (probe_chunk_duration meta lim initial maxOpt tol).completed = true := by
  have hmaxd : tol ≤ probeMaxDuration meta maxOpt tol := le_max_left _ _
  have h := probe_search_main meta lim (probeMaxDuration meta maxOpt tol) tol
    (min initial (probeMaxDuration meta maxOpt tol)) ht
    (lt_min hi (lt_of_lt_of_le ht hmaxd)) (min_le_right _ _) hmaxd
  exact h.2.2.2

/-- Witness for C10: the probe on a 6-second, 8 kHz mono 16-bit file with
the 4096 MiB fallback budget terminates. -/
theorem probe_terminates_witness :
    (probe_chunk_duration ⟨6, 8000, 1, 2⟩ 4096 60 none 5).completed = true :=
  probe_terminates ⟨6, 8000, 1, 2⟩ 4096 60 5 none (by norm_num) (by norm_num)

/-- C6 (amended): for positive `initial_duration_s` and `tolerance_s`, the
final `low` value lies in
`[min(initial_duration_s, tolerance_s), max(tolerance_s, min(requestedMax,
audioDuration))]`, and the returned `max_duration_s` is that value rounded
to two decimal places (hence within `1/200` of the interval).  (The
claimed interval `[tolerance_s, min(requestedMax, audioDuration)]` fails
when the initial candidate is below the tolerance and fits, or when the
tolerance exceeds the clamped bound: see the counterexample.) -/
theorem probe_result_bounds (meta : WaveMetadata) (lim initial tol : ℚ)
    (maxOpt : Option ℚ) (hi : 0 < initial) (ht : 0 < tol) :
    min initial tol ≤ (probe_chunk_duration meta lim initial maxOpt tol).low_final ∧
    (probe_chunk_duration meta lim initial maxOpt tol).low_final ≤
      probeMaxDuration meta maxOpt tol ∧
    (probe_chunk_duration meta lim initial maxOpt tol).max_duration_s =
      round2 (probe_chunk_duration meta lim initial maxOpt tol).low_final ∧
    |(probe_chunk_duration meta lim initial maxOpt tol).max_duration_s -
      (probe_chunk_duration meta lim initial maxOpt tol).low_final| ≤ 1 / 200 := by
  have hmaxd : tol ≤ probeMaxDuration meta maxOpt tol := le_max_left _ _
  have h := probe_search_main meta lim (probeMaxDuration meta maxOpt tol) tol
    (min initial (probeMaxDuration meta maxOpt tol)) ht
    (lt_min hi (lt_of_lt_of_le ht hmaxd)) (min_le_right _ _) hmaxd
  have hmin : min (min initial (probeMaxDuration meta maxOpt tol)) tol =
      min initial tol := by
    rw [min_assoc, min_eq_right hmaxd]
  unfold probe_chunk_duration
  refine ⟨?_, h.2.1, h.2.2.1, ?_⟩
  · rw [← hmin]
    exact h.1
  · rw [h.2.2.1]
    exact round2_close _

/-- Witness for C6 (amended): concrete 100-second 44.1 kHz mono 16-bit
metadata, budget 4096 MiB, initial duration 1, tolerance 5, requested
maximum 6. -/
theorem probe_result_bounds_witness :
    min 1 5 ≤ (probe_chunk_duration ⟨100, 44100, 1, 2⟩ 4096 1 (some 6) 5).low_final ∧
    (probe_chunk_duration ⟨100, 44100, 1, 2⟩ 4096 1 (some 6) 5).low_final ≤
      probeMaxDuration ⟨100, 44100, 1, 2⟩ (some 6) 5 ∧
    (probe_chunk_duration ⟨100, 44100, 1, 2⟩ 4096 1 (some 6) 5).max_duration_s =
      round2 (probe_chunk_duration ⟨100, 44100, 1, 2⟩ 4096 1 (some 6) 5).low_final ∧
    |(probe_chunk_duration ⟨100, 44100, 1, 2⟩ 4096 1 (some 6) 5).max_duration_s -
      (probe_chunk_duration ⟨100, 44100, 1, 2⟩ 4096 1 (some 6) 5).low_final| ≤ 1 / 200 :=
  probe_result_bounds ⟨100, 44100, 1, 2⟩ 4096 1 5 (some 6) (by norm_num) (by norm_num)

/-- Counterexample to C6 as stated: on 100-second 44.1 kHz mono 16-bit
metadata with a 4096 MiB budget, initial duration 1, tolerance 5 and
requested maximum 6, the initial candidate (1 s) fits and the bisection
interval `6 - 1 = 5` is already within the tolerance, so the probe returns
`1.0` — strictly below the claimed lower bound `tolerance_s = 5`, although
the claimed interval `[5, min(6, 100)] = [5, 6]` is non-empty. -/
theorem probe_below_tolerance :
    (probe_chunk_duration ⟨100, 44100, 1, 2⟩ 4096 1 (some 6) 5).max_duration_s = 1 ∧
    (probe_chunk_duration ⟨100, 44100, 1, 2⟩ 4096 1 (some 6) 5).max_duration_s < 5 := by
  have hM : probeMaxDuration ⟨100, 44100, 1, 2⟩ (some 6) 5 = 6 := by
    unfold probeMaxDuration
    norm_num
  have hev : probeEvaluate ⟨100, 44100, 1, 2⟩ 4096 6 1 = (true, 476280 / 1048576) := by
    unfold probeEvaluate _estimate_vram_mb
    norm_num [Prod.ext_iff]
  have hfuel : probeFuel 6 5 = 2 + 1 := by
    unfold probeFuel
    have hceil : (⌈(6 : ℚ) / 5⌉ : ℤ) = 2 := by norm_num [Int.ceil_eq_iff]
    rw [hceil]
    rfl
  have hsearch : probeSearch ⟨100, 44100, 1, 2⟩ 4096 6 5 1 =
      ⟨round2 1, 1, [⟨1, 476280 / 1048576, true⟩], true⟩ := by
    unfold probeSearch
    rw [hev, hfuel]
    simp only [bisectLoop]
    rw [if_pos (by norm_num : (6 : ℚ) - 1 ≤ 5), if_pos trivial]
  have hround : round2 1 = 1 := by
    unfold round2
    norm_num
  have hprobe : probe_chunk_duration ⟨100, 44100, 1, 2⟩ 4096 1 (some 6) 5 =
      ⟨1, 1, [⟨1, 476280 / 1048576, true⟩], true⟩ := by
    unfold probe_chunk_duration
    rw [hM]
    have hmin : min (1 : ℚ) 6 = 1 := by norm_num
    rw [hmin, hsearch, hround]
  rw [hprobe]
  norm_num

end Badc
